import Mathlib

/-!
Verification of the training-golang repository.

The repository is a set of standalone Go teaching examples.  This file embeds
the parts of the code the claims are about:

* the `mysort` helper package (length / less / swap comparison sort plus an
  is-sorted check) together with its three demo drivers over integers,
  strings and a custom day record (`Structs and Methods/ex1.go`);
* the two-route HTTP demo (`HelloServer` and `Spy`);
* the text-templating demo with its three conditional templates;
* the `TwoInts` Stringer demo (`Session 1/ex18.go`) and the `T.print`
  method-expression demo (`Structs and Methods/ex1.go`).

Collections exposing the Go `Len / Less / Swap` triple are embedded as Lean
lists paired with a boolean comparison `less` on elements: `Less i j` in Go
reads the elements at positions `i` and `j` and compares them, so a positional
collection is exactly a list, and `Swap` of adjacent positions is an adjacent
transposition inside the sorting pass.  Output of the demo programs is
modelled as the string each program writes to standard output; a fatal abort
(`panic`) is modelled as `Except.error`.
-/

namespace mysort

/-- Modelled from the spec: the package `mysort` itself is not part of the
source tree (only its import and its callers are).  Spec §4.1 describes it as
a textbook exchange sort over the three operations.  One exchange pass walks
the collection comparing adjacent positions `i` and `i+1` and swaps them
whenever `Less (i+1) i` holds. -/
def passAux (less : α → α → Bool) (cur : α) : List α → List α
  | [] => [cur]
  | b :: rest =>
    if less b cur then b :: passAux less cur rest
    else cur :: passAux less b rest

/-- One full exchange pass over the collection. -/
def bubblePass (less : α → α → Bool) : List α → List α
  | [] => []
  | a :: rest => passAux less a rest

/-- `Len` many exchange passes, the outer loop of the textbook exchange sort. -/
def bubble (less : α → α → Bool) : Nat → List α → List α
  | 0, l => l
  | n + 1, l => bubble less n (bubblePass less l)

/-- Modelled from the spec: `mysort.Sort` rearranges the collection in place
into non-decreasing order according to the predicate, using exchange-sort
passes built from `Swap`s of adjacent positions.  (`Sort` is a Lean keyword,
hence the lower-case name.) -/
def sort (less : α → α → Bool) (l : List α) : List α :=
  bubble less l.length l

/-- Modelled from the spec: `mysort.IsSorted` checks that the ordering
predicate holds for every pair of adjacent indices, i.e. `Less i (i-1)` is
false for every index `1 ≤ i < Len`. -/
def IsSorted (less : α → α → Bool) : List α → Bool
  | [] => true
  | [_] => true
  | a :: b :: rest => !(less b a) && IsSorted less (b :: rest)

end mysort

/-! ### The three collections of `Structs and Methods/ex1.go`

`mysort.IntSlice`, `mysort.StringSlice` and the caller-defined `dayArray`
expose `Len / Less / Swap` over integers, strings and day records. -/

/-- `IntSlice.Less i j` compares the integers at the two positions with `<`. -/
def intLess (a b : Int) : Bool := decide (a < b)

/-- Go compares strings byte-wise lexicographically; UTF-8 byte order agrees
with code-point order, so the comparison is lexicographic on the character
sequences. -/
def charListLess : List Char → List Char → Bool
  | [], [] => false
  | [], _ :: _ => true
  | _ :: _, [] => false
  | a :: s, b :: t =>
    if a < b then true
    else if b < a then false
    else charListLess s t

/-- `StringSlice.Less i j` compares the strings at the two positions with
Go's `<` on strings. -/
def stringLess (s t : String) : Bool := charListLess s.data t.data

/-- The `day` record of `ex1.go`: a weekday number plus two names. -/
structure day where
  num : Int
  shortName : String
  longName : String

/-- `dayArray.Less i j` compares only the `num` fields of the two days. -/
def dayLess (d e : day) : Bool := decide (d.num < e.num)

/-- The integer data of the `ints` driver. -/
def intsData : List Int :=
  [74, 59, 238, -784, 9845, 959, 905, 0, 0, 42, 7586, -5467984, 7586]

/-- The string data of the `strings` driver. -/
def stringsData : List String :=
  ["Monday", "Friday", "Tuesday", "Wednesday", "Sunday", "Thursday", "", "Saturday"]

/-- The day data of the `days` driver, in the order the Go slice is built. -/
def daysData : List day :=
  [⟨1, "TUE", "Tuesday"⟩, ⟨3, "THU", "Thursday"⟩, ⟨2, "WED", "Wednesday"⟩,
   ⟨6, "SUN", "Sunday"⟩, ⟨0, "MON", "Monday"⟩, ⟨4, "FRI", "Friday"⟩,
   ⟨5, "SAT", "Saturday"⟩]

/-- The shared shape of the three sort-demo drivers: sort the data, then
`panic("fail")` when the is-sorted check fails, otherwise print the sorted
collection.  The abort is `Except.error "fail"`; the printed collection is
`Except.ok`. -/
def runDriver (less : α → α → Bool) (data : List α) : Except String (List α) :=
  let a := mysort.sort less data
  if mysort.IsSorted less a then Except.ok a else Except.error "fail"

/-- The `ints` driver of `ex1.go`. -/
def intsDriver : Except String (List Int) := runDriver intLess intsData

/-- The `strings` driver of `ex1.go`. -/
def stringsDriver : Except String (List String) := runDriver stringLess stringsData

/-- The `days` driver of `ex1.go`. -/
def daysDriver : Except String (List day) := runDriver dayLess daysData

/-! ### The HTTP demo -/

/-- `HelloServer` writes `"Hello, " + req.URL.Path[1:]` to the response:
the greeting followed by the request path with its first byte removed. -/
def HelloServer (path : String) : String :=
  "Hello, " ++ String.mk (path.data.drop 1)

/-- `Spy` writes the fixed string `"James Bond"`, ignoring the request. -/
def Spy (_path : String) : String := "James Bond"

/-- `main` registers pattern `"/"` for `HelloServer` and pattern `"/spy"` for
`Spy`.  Go's request multiplexer sends the exact path `"/spy"` to `Spy`
(a pattern without a trailing slash matches only its exact path) and every
other path to the catch-all root pattern. -/
def dispatch (path : String) : String :=
  if path = "/spy" then Spy path else HelloServer path

/-- The listen address passed to `http.ListenAndServe`, and the fact that the
demo uses the plaintext (non-TLS) listener. -/
structure ServerSetup where
  addr : String
  tls : Bool

/-- The server configuration of the HTTP demo's `main`. -/
def mainServer : ServerSetup := { addr := "0.0.0.0:3000", tls := false }

/-! ### The templating demo

`text/template` templates are embedded as their parse trees: literal text
interleaved with `if` actions.  The only pipelines the demo uses are raw
string literals, whose truth value in `text/template` is non-emptiness. -/

/-- A parsed node of one of the demo's templates. -/
inductive TItem where
  | text (s : String)
  | ifPipe (pipeline thenPart elsePart : String)
deriving DecidableEq

/-- Rendering one node: an `if` action renders its body when the pipeline
value is non-empty, its else-part otherwise. -/
def renderItem : TItem → String
  | TItem.text s => s
  | TItem.ifPipe p t e => if p = "" then e else t

/-- Rendering a parsed template. -/
def render (items : List TItem) : String :=
  String.join (items.map renderItem)

/-- `Execute` on a template: a parsed template writes its rendering to the
writer; an unparsed template (`template.New` before any `Parse`) reports an
"incomplete or empty template" error and writes nothing. -/
def execute : Option (List TItem) → String
  | none => ""
  | some items => render items

/-- Parse tree of `"Empty pipeline if demo: {{...}}\n"`: text, an `if` with
the empty raw-string pipeline and body `" Will not print. "`, then a
newline. -/
def tEmptyItems : List TItem :=
  [TItem.text "Empty pipeline if demo: ",
   TItem.ifPipe "" " Will not print. " "",
   TItem.text "\n"]

/-- Parse tree of the non-empty-pipeline template. -/
def tWithValueItems : List TItem :=
  [TItem.text "Non empty pipeline if demo: ",
   TItem.ifPipe "anything" " Will print. " "",
   TItem.text "\n"]

/-- Parse tree of the if-else template. -/
def tIfElseItems : List TItem :=
  [TItem.text "if-else demo: ",
   TItem.ifPipe "anything" " Print IF part. " " Print ELSE part.",
   TItem.text "\n"]

/-- What the templating demo's `main` writes to standard output, statement by
statement: `tEmpty.Execute` runs *before* `tEmpty` is parsed (the demo calls
`Execute` on the fresh template and only then `Parse`), so the first call
executes an unparsed template; the other two templates are parsed first and
executed once each. -/
def templateMainOutput : String :=
  execute none ++ execute (some tWithValueItems) ++ execute (some tIfElseItems)

/-- What the demo would have to write for each of the three literal templates
to be rendered exactly once, as the spec describes. -/
def templateClaimedOutput : String :=
  render tEmptyItems ++ render tWithValueItems ++ render tIfElseItems

/-! ### The `TwoInts` Stringer demo (`Session 1/ex18.go`) -/

/-- Model of `strconv.Itoa`'s digit loop on naturals: divide by 10, prepend
the digit character, with enough fuel to exhaust the number. -/
def itoaCore : Nat → Nat → List Char → List Char
  | 0, _, acc => acc
  | fuel + 1, n, acc =>
    let d := Nat.digitChar (n % 10)
    if n / 10 = 0 then d :: acc
    else itoaCore fuel (n / 10) (d :: acc)

/-- Decimal digits of a natural number, as `strconv` produces them. -/
def itoaNat (n : Nat) : String := (itoaCore (n + 1) n []).asString

/-- Model of `strconv.Itoa`: a leading minus sign for negative inputs, then
the decimal digits of the magnitude. -/
def itoa (i : Int) : String :=
  if i < 0 then "-" ++ itoaNat i.natAbs else itoaNat i.toNat

/-- The `TwoInts` struct of `ex18.go`. -/
structure TwoInts where
  a : Int
  b : Int

/-- The `String` method on `*TwoInts`. -/
def TwoInts.String (tn : TwoInts) : String :=
  "(" ++ itoa tn.a ++ " / " ++ itoa tn.b ++ ")"

/-- `fmt`'s `%v` verb and `Println` both use the `String` method of a value
whose type implements the `Stringer` interface, which `*TwoInts` does. -/
def fmtV (tn : TwoInts) : String := TwoInts.String tn

/-- The value built by `ex18.go`'s `main`: `two1.a = 12`, `two1.b = 10`. -/
def two1 : TwoInts := { a := 12, b := 10 }

/-- Output of `fmt.Printf("two1 is: %v\n", two1)`. -/
def ex18Line1 : String := "two1 is: " ++ fmtV two1 ++ "\n"

/-- Output of `fmt.Println("two1 is:", two1)`: `Println` separates its
operands with a space and appends a newline. -/
def ex18Line2 : String := "two1 is:" ++ " " ++ fmtV two1 ++ "\n"

/-! ### The method-expression demo (`Structs and Methods/ex1.go`, first part) -/

/-- The struct `T` with its single integer field. -/
structure T where
  a : Int

/-- The method `print` on `T`: `fmt.Println(message, t.a)` writes the message,
a space, the decimal form of `t.a` and a newline. -/
def T.print (t : T) (message : String) : String :=
  message ++ " " ++ itoa t.a ++ "\n"

/-- The method `hello` on `T`, which ignores its receiver. -/
def T.hello (_t : T) (message : String) : String :=
  "Hello!" ++ " " ++ message ++ "\n"

/-- `callMethod` applies a stored method value to the given receiver and the
fixed message `"A message"`. -/
def callMethod (t : T) (method : T → String → String) : String :=
  method t "A message"

/-- `var f func(T, string) = T.print` of the demo's `main`. -/
def fMethod : T → String → String := T.print

/-- `t1 := T{10}`. -/
def t1 : T := { a := 10 }

/-- `t2 := T{20}`. -/
def t2 : T := { a := 20 }

/-! ## Theorems -/

namespace mysort

theorem passAux_perm (less : α → α → Bool) (cur : α) (l : List α) :
    List.Perm (passAux less cur l) (cur :: l) := by
  induction l generalizing cur with
  | nil => exact List.Perm.refl [cur]
  | cons b rest ih =>
    rw [passAux]
    by_cases h : less b cur = true
    · rw [if_pos h]
      exact ((ih cur).cons b).trans (List.Perm.swap cur b rest)
    · rw [if_neg h]
      exact (ih b).cons cur

theorem bubblePass_perm (less : α → α → Bool) (l : List α) :
    List.Perm (bubblePass less l) l := by
  cases l with
  | nil => exact List.Perm.refl []
  | cons a rest => exact passAux_perm less a rest

theorem bubble_perm (less : α → α → Bool) (n : Nat) (l : List α) :
    List.Perm (bubble less n l) l := by
  induction n generalizing l with
  | zero => exact List.Perm.refl l
  | succ n ih => exact (ih (bubblePass less l)).trans (bubblePass_perm less l)

theorem sort_perm (less : α → α → Bool) (l : List α) : List.Perm (sort less l) l :=
  bubble_perm less l.length l

theorem passAux_max (less : α → α → Bool)
    (hasym : ∀ a b, less a b = true → less b a = false)
    (htrans : ∀ a b c, less b a = false → less c b = false → less c a = false)
    (l : List α) :
    ∀ cur, ∃ l' m, passAux less cur l = l' ++ [m] ∧
      ∀ x ∈ cur :: l, less m x = false := by
  induction l with
  | nil =>
    intro cur
    refine ⟨[], cur, rfl, ?_⟩
    intro x hx
    rw [List.mem_singleton] at hx
    subst hx
    by_cases h : less x x = true
    · exact hasym x x h
    · rw [Bool.not_eq_true] at h
      exact h
  | cons b rest ih =>
    intro cur
    rw [passAux]
    by_cases h : less b cur = true
    · obtain ⟨l', m, heq, hmax⟩ := ih cur
      refine ⟨b :: l', m, by rw [if_pos h, heq]; rfl, ?_⟩
      intro x hx
      rcases List.mem_cons.1 hx with rfl | hx
      · exact hmax x (List.mem_cons_self _ _)
      rcases List.mem_cons.1 hx with rfl | hx
      · exact htrans x cur m (hasym x cur h) (hmax cur (List.mem_cons_self _ _))
      · exact hmax x (List.mem_cons_of_mem _ hx)
    · rw [Bool.not_eq_true] at h
      obtain ⟨l', m, heq, hmax⟩ := ih b
      refine ⟨cur :: l', m, by rw [heq] at *; simp [h], ?_⟩
      intro x hx
      rcases List.mem_cons.1 hx with rfl | hx
      · exact htrans x b m h (hmax b (List.mem_cons_self _ _))
      · exact hmax x hx

theorem passAux_append_last (less : α → α → Bool) (m : α) (l : List α) :
    ∀ cur, (∀ x ∈ cur :: l, less m x = false) →
      passAux less cur (l ++ [m]) = passAux less cur l ++ [m] := by
  induction l with
  | nil =>
    intro cur h
    have hm : less m cur = false := h cur (List.mem_cons_self _ _)
    simp [passAux, hm]
  | cons b rest ih =>
    intro cur h
    have hmb : less m b = false := h b (by simp)
    have hmc : less m cur = false := h cur (by simp)
    rw [List.cons_append, passAux, passAux]
    by_cases hb : less b cur = true
    · rw [if_pos hb, if_pos hb, List.cons_append, ih cur]
      intro x hx
      rcases List.mem_cons.1 hx with rfl | hx
      · exact hmc
      · exact h x (List.mem_cons_of_mem _ (List.mem_cons_of_mem _ hx))
    · rw [if_neg hb, if_neg hb, List.cons_append, ih b]
      intro x hx
      rcases List.mem_cons.1 hx with rfl | hx
      · exact hmb
      · exact h x (List.mem_cons_of_mem _ (List.mem_cons_of_mem _ hx))

theorem bubblePass_append_last (less : α → α → Bool) (m : α) (l : List α)
    (h : ∀ x ∈ l, less m x = false) :
    bubblePass less (l ++ [m]) = bubblePass less l ++ [m] := by
  cases l with
  | nil => simp [bubblePass, passAux]
  | cons a rest =>
    rw [List.cons_append, bubblePass, bubblePass]
    exact passAux_append_last less m rest a h

theorem bubble_append_last (less : α → α → Bool) (n : Nat) :
    ∀ (l : List α) (m : α), (∀ x ∈ l, less m x = false) →
      bubble less n (l ++ [m]) = bubble less n l ++ [m] := by
  induction n with
  | zero => intro l m _; rfl
  | succ n ih =>
    intro l m h
    show bubble less n (bubblePass less (l ++ [m])) =
      bubble less n (bubblePass less l) ++ [m]
    rw [bubblePass_append_last less m l h]
    exact ih (bubblePass less l) m
      (fun x hx => h x ((bubblePass_perm less l).mem_iff.1 hx))

theorem isSorted_append_last (less : α → α → Bool) (m : α) :
    ∀ l : List α, IsSorted less l = true → (∀ x ∈ l, less m x = false) →
      IsSorted less (l ++ [m]) = true := by
  intro l
  induction l using IsSorted.induct less with
  | case1 => intro _ _; rfl
  | case2 a =>
    intro _ h
    have hm : less m a = false := h a (List.mem_cons_self _ _)
    simp [IsSorted, hm]
  | case3 a b rest ih =>
    intro hs h
    rw [IsSorted, Bool.and_eq_true] at hs
    have h2 := ih hs.2 (fun x hx => h x (List.mem_cons_of_mem _ hx))
    simp only [List.cons_append] at h2 ⊢
    rw [IsSorted, Bool.and_eq_true]
    exact ⟨hs.1, h2⟩

theorem bubble_isSorted (less : α → α → Bool)
    (hasym : ∀ a b, less a b = true → less b a = false)
    (htrans : ∀ a b c, less b a = false → less c b = false → less c a = false) :
    ∀ (n : Nat) (l : List α), l.length ≤ n + 1 →
      IsSorted less (bubble less n l) = true := by
  intro n
  induction n with
  | zero =>
    intro l hl
    cases l with
    | nil => rfl
    | cons a t =>
      cases t with
      | nil => rfl
      | cons b r => simp only [List.length_cons] at hl; omega
  | succ n ih =>
    intro l hl
    cases l with
    | nil =>
      show IsSorted less (bubble less n (bubblePass less [])) = true
      exact ih [] (by simp [bubblePass])
    | cons a t =>
      obtain ⟨l', m, heq, hmax⟩ := passAux_max less hasym htrans t a
      have hpass : bubblePass less (a :: t) = l' ++ [m] := by
        rw [bubblePass]; exact heq
      have hmem : ∀ x ∈ l', less m x = false := by
        intro x hx
        apply hmax
        have hx2 : x ∈ l' ++ [m] := List.mem_append_left _ hx
        rw [← hpass] at hx2
        exact (bubblePass_perm less (a :: t)).mem_iff.1 hx2
      have hlen : l'.length ≤ n + 1 := by
        have h1 : (l' ++ [m]).length = (a :: t).length := by
          rw [← hpass]; exact (bubblePass_perm less (a :: t)).length_eq
        simp only [List.length_append, List.length_cons, List.length_nil] at h1 hl
        omega
      show IsSorted less (bubble less n (bubblePass less (a :: t))) = true
      rw [hpass, bubble_append_last less n l' m hmem]
      apply isSorted_append_last less m (bubble less n l') (ih l' hlen)
      intro x hx
      exact hmem x ((bubble_perm less n l').mem_iff.1 hx)

theorem sort_isSorted (less : α → α → Bool)
    (hasym : ∀ a b, less a b = true → less b a = false)
    (htrans : ∀ a b c, less b a = false → less c b = false → less c a = false)
    (l : List α) : IsSorted less (sort less l) = true :=
  bubble_isSorted less hasym htrans l.length l (Nat.le_succ _)

theorem passAux_of_isSorted (less : α → α → Bool) :
    ∀ (l : List α) (cur : α), IsSorted less (cur :: l) = true →
      passAux less cur l = cur :: l := by
  intro l
  induction l with
  | nil => intro cur _; rfl
  | cons b rest ih =>
    intro cur h
    have h1 : less b cur = false ∧ IsSorted less (b :: rest) = true := by
      simpa [IsSorted, Bool.and_eq_true, Bool.not_eq_true'] using h
    rw [passAux, if_neg (by simp [h1.1]), ih b h1.2]

theorem bubblePass_of_isSorted (less : α → α → Bool) (l : List α)
    (h : IsSorted less l = true) : bubblePass less l = l := by
  cases l with
  | nil => rfl
  | cons a t => rw [bubblePass]; exact passAux_of_isSorted less t a h

theorem bubble_of_isSorted (less : α → α → Bool) (n : Nat) (l : List α)
    (h : IsSorted less l = true) : bubble less n l = l := by
  induction n with
  | zero => rfl
  | succ n ih =>
    show bubble less n (bubblePass less l) = l
    rw [bubblePass_of_isSorted less l h]
    exact ih

theorem sort_of_isSorted (less : α → α → Bool) (l : List α)
    (h : IsSorted less l = true) : sort less l = l :=
  bubble_of_isSorted less l.length l h

theorem isSorted_short (less : α → α → Bool) (l : List α) (h : l.length ≤ 1) :
    IsSorted less l = true := by
  cases l with
  | nil => rfl
  | cons a t =>
    cases t with
    | nil => rfl
    | cons b r => simp only [List.length_cons] at h; omega

theorem isSorted_eq_chain (less : α → α → Bool) (l : List α) :
    IsSorted less l = true ↔ List.Chain' (fun a b => less b a = false) l := by
  induction l using IsSorted.induct less with
  | case1 => simp [IsSorted]
  | case2 a => simp [IsSorted]
  | case3 a b rest ih =>
    rw [IsSorted, List.chain'_cons]
    simp [Bool.and_eq_true, Bool.not_eq_true', ih]

end mysort

/-! ### Helper lemmas about the concrete comparisons and `strconv` model -/

theorem intLess_asymm (a b : Int) (h : intLess a b = true) : intLess b a = false := by
  simp only [intLess, decide_eq_true_eq] at h
  simp only [intLess, decide_eq_false_iff_not]
  omega

theorem intLess_negtrans (a b c : Int) (h1 : intLess b a = false)
    (h2 : intLess c b = false) : intLess c a = false := by
  simp only [intLess, decide_eq_false_iff_not] at h1 h2 ⊢
  omega

theorem itoaCore_eq_toDigitsCore :
    ∀ (fuel n : Nat) (acc : List Char),
      itoaCore fuel n acc = Nat.toDigitsCore 10 fuel n acc := by
  intro fuel
  induction fuel with
  | zero => intro n acc; rfl
  | succ fuel ih =>
    intro n acc
    simp only [itoaCore, Nat.toDigitsCore]
    by_cases h : n / 10 = 0
    · simp [h]
    · simp [h, ih]

theorem itoaNat_eq_repr (n : Nat) : itoaNat n = Nat.repr n := by
  rw [itoaNat, Nat.repr, Nat.toDigits, itoaCore_eq_toDigitsCore]

theorem itoa_eq_toString (i : Int) : itoa i = toString i := by
  cases i with
  | ofNat m =>
    have h : ¬ ((Int.ofNat m) < 0) := Int.not_lt.mpr (Int.ofNat_nonneg m)
    rw [itoa, if_neg h]
    show itoaNat m = toString (Int.ofNat m)
    rw [itoaNat_eq_repr]
    rfl
  | negSucc m =>
    have h : (Int.negSucc m) < 0 := Int.negSucc_lt_zero m
    rw [itoa, if_pos h]
    show "-" ++ itoaNat (m + 1) = toString (Int.negSucc m)
    rw [itoaNat_eq_repr]
    rfl

theorem isSorted_iff_adjacent_succ (less : α → α → Bool) (l : List α) :
    mysort.IsSorted less l = true ↔
      ∀ (j : Nat) (hj : j + 1 < l.length),
        less (l.get ⟨j + 1, hj⟩) (l.get ⟨j, Nat.lt_of_succ_lt hj⟩) = false := by
  induction l using mysort.IsSorted.induct less with
  | case1 =>
    constructor
    · intro _ j hj
      exact absurd hj (by simp)
    · intro _
      rfl
  | case2 a =>
    constructor
    · intro _ j hj
      simp only [List.length_cons, List.length_nil] at hj
      omega
    · intro _
      rfl
  | case3 a b rest ih =>
    rw [mysort.IsSorted, Bool.and_eq_true, Bool.not_eq_true', ih]
    constructor
    · rintro ⟨h0, hrest⟩ j hj
      cases j with
      | zero => exact h0
      | succ k =>
        exact hrest k (by simp only [List.length_cons] at hj ⊢; omega)
    · intro hadj
      refine ⟨hadj 0 (by simp only [List.length_cons]; omega), ?_⟩
      intro k hk
      exact hadj (k + 1) (by simp only [List.length_cons] at hk ⊢; omega)

/-! ### The claims -/

/-- Claim C1: for every collection exposing `Len`, `Less` and `Swap`, with
`Less` an ordering predicate (asymmetric and negatively transitive, as every
comparison the repository defines is), `mysort.IsSorted` returns true on the
collection produced by `mysort.Sort`: the sort rearranges the collection into
non-decreasing order according to the predicate. -/
theorem C1_sort_isSorted {α : Type} (less : α → α → Bool)
    (hasym : ∀ a b, less a b = true → less b a = false)
    (htrans : ∀ a b c, less b a = false → less c b = false → less c a = false)
    (l : List α) :
    mysort.IsSorted less (mysort.sort less l) = true :=
  mysort.sort_isSorted less hasym htrans l

/-- Witness for C1 at the integer data of the `ints` driver. -/
theorem C1_sort_isSorted_witness :
    mysort.IsSorted intLess (mysort.sort intLess intsData) = true :=
  C1_sort_isSorted intLess intLess_asymm intLess_negtrans intsData

/-- Claim C2: for every input collection, the collection produced by
`mysort.Sort` is a permutation of the original: the same multiset of
elements.  The embedded sort touches the collection only through adjacent
transpositions (`Swap`) and `Less` tests, so this holds for every comparison
function whatsoever. -/
theorem C2_sort_permutation {α : Type} (less : α → α → Bool) (l : List α) :
    Multiset.ofList (mysort.sort less l) = Multiset.ofList l :=
  Quot.sound (mysort.sort_perm less l)

/-- Claim C3: `mysort.IsSorted` returns true iff the ordering predicate holds
at every pair of adjacent indices: for every index `i` with
`1 ≤ i < Len`, `Less i (i-1)` is false. -/
theorem C3_isSorted_iff_adjacent {α : Type} (less : α → α → Bool) (l : List α) :
    mysort.IsSorted less l = true ↔
      ∀ (i : Nat) (h : i < l.length), 1 ≤ i →
        less (l.get ⟨i, h⟩)
          (l.get ⟨i - 1, Nat.lt_of_le_of_lt (Nat.sub_le i 1) h⟩) = false := by
  rw [isSorted_iff_adjacent_succ]
  constructor
  · intro hadj i hi h1
    cases i with
    | zero => omega
    | succ j => exact hadj j hi
  · intro hadj j hj
    exact hadj (j + 1) hj (by omega)

/-- Claim C4: on an already-sorted, single-element or empty collection,
`mysort.Sort` is a no-op, and `mysort.IsSorted` still returns true
afterwards. -/
theorem C4_sort_noop {α : Type} (less : α → α → Bool) (l : List α)
    (h : mysort.IsSorted less l = true ∨ l.length ≤ 1) :
    mysort.sort less l = l ∧ mysort.IsSorted less (mysort.sort less l) = true := by
  have hs : mysort.IsSorted less l = true := by
    rcases h with h | h
    · exact h
    · exact mysort.isSorted_short less l h
  refine ⟨mysort.sort_of_isSorted less l hs, ?_⟩
  rw [mysort.sort_of_isSorted less l hs]
  exact hs

/-- Witness for C4 at a concrete already-sorted integer collection. -/
theorem C4_sort_noop_witness :
    (mysort.IsSorted intLess [(1 : Int), 2, 3] = true ∨
        ([(1 : Int), 2, 3]).length ≤ 1) ∧
      (mysort.sort intLess [(1 : Int), 2, 3] = [1, 2, 3] ∧
        mysort.IsSorted intLess (mysort.sort intLess [(1 : Int), 2, 3]) = true) :=
  ⟨Or.inl (by decide), C4_sort_noop intLess [1, 2, 3] (Or.inl (by decide))⟩

/-- Claim C5: each sort-demo driver aborts fatally (the modelled
`panic("fail")`) iff `mysort.IsSorted` returns false on the collection after
`mysort.Sort` has run — there is no other failure handling — and on a
successful sort the driver proceeds to print the sorted collection, which all
three drivers do on their data. -/
theorem C5_driver_abort_iff :
    (∀ (α : Type) (less : α → α → Bool) (data : List α),
        runDriver less data = Except.error "fail" ↔
          mysort.IsSorted less (mysort.sort less data) = false) ∧
      intsDriver = Except.ok (mysort.sort intLess intsData) ∧
      stringsDriver = Except.ok (mysort.sort stringLess stringsData) ∧
      daysDriver = Except.ok (mysort.sort dayLess daysData) := by
  refine ⟨?_, rfl, rfl, rfl⟩
  intro α less data
  simp only [runDriver]
  cases hb : mysort.IsSorted less (mysort.sort less data) with
  | true => simp
  | false => simp

/-- Claim C6: a request whose path starts with a slash and is dispatched to
the root-path handler gets the response body `"Hello, "` followed by the path
with its leading slash removed, and nothing else. -/
theorem C6_helloServer (path suffix : String) (hpath : path = "/" ++ suffix)
    (hroot : path ≠ "/spy") :
    dispatch path = "Hello, " ++ suffix := by
  subst hpath
  rw [dispatch, if_neg hroot, HelloServer, String.data_append]
  rfl

/-- Witness for C6 at the path `"/world"`. -/
theorem C6_helloServer_witness :
    (("/world" : String) = "/" ++ "world" ∧ ("/world" : String) ≠ "/spy") ∧
      dispatch "/world" = "Hello, " ++ "world" :=
  ⟨⟨rfl, by decide⟩, C6_helloServer "/world" "world" rfl (by decide)⟩

/-- Claim C7: every request to `"/spy"` gets exactly the body
`"James Bond"`, whatever the rest of the request is, and the server serves
both routes in plaintext on the fixed address `0.0.0.0:3000`. -/
theorem C7_spy :
    (∀ path : String, Spy path = "James Bond") ∧
      dispatch "/spy" = "James Bond" ∧
      mainServer.addr = "0.0.0.0:3000" ∧ mainServer.tls = false :=
  ⟨fun _ => rfl, rfl, rfl, rfl⟩

/-- Claim C8: the claim says each of the three literal templates is rendered
exactly once to standard output.  The code calls `tEmpty.Execute` *before*
`tEmpty.Parse`, so the empty-pipeline template is executed while still
unparsed (which writes nothing) and is never executed after being parsed: the
demo prints only the renderings of the other two templates, differing from
the output the claim describes. -/
theorem C8_template_first_never_rendered :
    templateMainOutput =
        "Non empty pipeline if demo:  Will print. \nif-else demo:  Print IF part. \n" ∧
      templateClaimedOutput =
        "Empty pipeline if demo: \nNon empty pipeline if demo:  Will print. \nif-else demo:  Print IF part. \n" ∧
      templateMainOutput ≠ templateClaimedOutput :=
  ⟨rfl, rfl, by decide⟩

/-- Claim C9: for every `TwoInts` value, zero and negative fields included,
the `String` method produces the opening parenthesis, the decimal
representation of `a`, the separator, the decimal representation of `b` and
the closing parenthesis; `%v` and `Println` print through that method, so
`ex18.go`'s two prints both produce the documented line `two1 is: (12 / 10)`. -/
theorem C9_twoInts_string (a b : Int) :
    TwoInts.String { a := a, b := b } =
        "(" ++ toString a ++ " / " ++ toString b ++ ")" ∧
      fmtV { a := a, b := b } = TwoInts.String { a := a, b := b } ∧
      ex18Line1 = "two1 is: (12 / 10)" ++ "\n" ∧
      ex18Line2 = "two1 is: (12 / 10)" ++ "\n" := by
  refine ⟨?_, rfl, rfl, rfl⟩
  rw [TwoInts.String, itoa_eq_toString, itoa_eq_toString]

/-- Claim C10: the method expression `T.print` is, as a function, the
two-argument function printing the message followed by the receiver's field
`a`; `callMethod` binds the receiver at call time, so the same stored
function value applied to `t1` and `t2` prints `A message 10` and
`A message 20` respectively. -/
theorem C10_method_expression :
    (∀ (t : T) (message : String),
        T.print t message = message ++ " " ++ itoa t.a ++ "\n") ∧
      fMethod = T.print ∧
      callMethod t1 fMethod = "A message 10" ++ "\n" ∧
      callMethod t2 fMethod = "A message 20" ++ "\n" :=
  ⟨fun _ _ => rfl, rfl, rfl, rfl⟩
